import Mathlib

/-!
Verification of the agent turn-execution loop with memory-augmented
context management (spec sections 3-8).  The repository ships the engine
as a Python package whose sources are not part of this checkout (only the
tutorial notebook and project description are); every definition below is
therefore modelled from the specification's words, with the notebook's
recorded behaviour used to fix concrete formats (message texts, event
order).
-/

namespace Autogen

/-- Modelled from the spec (§3 MemoryEntry): mime type enumeration. -/
inductive MimeType where
  | text
  | json
  | binary
deriving DecidableEq

/-- Modelled from the spec (§3 MemoryEntry): a memory entry with content,
mime type, optional metadata/timestamp/source, and a score that is
populated only on retrieval.  Scores are rationals (the reference
similarity measure is a ratio of naturals). -/
structure MemoryContent where
  content : String
  mimeType : MimeType := .text
  metadata : Option String := none
  timestamp : Option Nat := none
  source : Option String := none
  score : Option ℚ := none
deriving DecidableEq

/-- Modelled from the spec (§3 ToolCallRequest): id, tool name, arguments. -/
structure ToolCallRequest where
  id : String
  name : String
  arguments : String
deriving DecidableEq

/-- Modelled from the spec (§3 ToolResult): callId pairing a request, content. -/
structure ToolResult where
  callId : String
  content : String
deriving DecidableEq

/-- Modelled from the spec (§3 ContextMessage): tagged union over
System (with a memory-derived tag, §3 ContextBuffer), User, Assistant
(may carry tool-call requests) and ToolResult messages. -/
inductive ContextMessage where
  | system (content : String) (memoryDerived : Bool)
  | user (content : String)
  | assistant (content : String) (calls : List ToolCallRequest)
  | toolResult (result : ToolResult)
deriving DecidableEq

/-- Modelled from the spec (§6): usage counters attached to a Model
Gateway response. -/
structure RequestUsage where
  promptTokens : Nat
  completionTokens : Nat
deriving DecidableEq

/-- Modelled from the spec (§3 Event): tagged union of the stream event
types.  `memoryDegradedEvent` realises §7's requirement that every
non-fatal error (a failing memory store) still produces an event. -/
inductive Event where
  | textMessage (source : String) (content : String) (usage : Option RequestUsage)
  | memoryQueryEvent (source : String) (content : List MemoryContent)
  | memoryDegradedEvent (source : String) (error : String)
  | toolCallRequestEvent (source : String) (content : List ToolCallRequest) (usage : Option RequestUsage)
  | toolCallExecutionEvent (source : String) (content : List ToolResult)
  | toolCallSummaryMessage (source : String) (content : String)
deriving DecidableEq

/-- Modelled from the spec (§3 TaskResult): ordered events plus an
optional stop reason. -/
structure TaskResult where
  messages : List Event
  stopReason : Option String
deriving DecidableEq

/-! ## Memory Store (§4.1, ListMemory reference implementation) -/

/-- Modelled from the spec (§4.1): length of a longest matching
subsequence of two character lists, the combinatorial core of the
reference similarity measure. -/
def lcs : List Char → List Char → Nat
  | [], _ => 0
  | _ :: _, [] => 0
  | a :: as, b :: bs =>
    if a = b then lcs as bs + 1
    else max (lcs (a :: as) bs) (lcs as (b :: bs))
termination_by l₁ l₂ => l₁.length + l₂.length

/-- Modelled from the spec (§4.1): the reference similarity measure, the
longest-matching-subsequence ratio `2*M/T` (with the empty-on-empty case
equal to 1, as in the difflib ratio the notebook cites). -/
def similarity (a b : String) : ℚ :=
  if a.length + b.length = 0 then 1
  else (2 * (lcs a.data b.data : ℚ)) / ((a.length + b.length : ℕ) : ℚ)

/-- Score of an entry, defaulting to 0 when absent. -/
def scoreOf (e : MemoryContent) : ℚ := (e.score).getD 0

/-- Modelled from the spec (§4.1 query): insert an entry into a
descending-by-score list, placed before the first entry of smaller or
equal score, so that among equal scores the earlier-inserted entry wins. -/
def insertEntry (e : MemoryContent) : List MemoryContent → List MemoryContent
  | [] => [e]
  | x :: xs => if scoreOf x ≤ scoreOf e then e :: x :: xs else x :: insertEntry e xs

/-- Modelled from the spec (§4.1 query): stable descending sort by score. -/
def rankEntries : List MemoryContent → List MemoryContent
  | [] => []
  | x :: xs => insertEntry x (rankEntries xs)

namespace ListMemory

/-- Modelled from the spec (§4.1 query): scored copies of the stored
entries, the score being the similarity of the query text with the
entry's content. -/
def scoredList (store : List MemoryContent) (text : String) : List MemoryContent :=
  store.map (fun e => { e with score := some (similarity text e.content) })

/-- Modelled from the spec (§4.1 query, reference default): all entries
scoring above a non-zero threshold, ranked highest score first. -/
def queryAll (store : List MemoryContent) (text : String) (threshold : ℚ) : List MemoryContent :=
  rankEntries ((scoredList store text).filter (fun e => decide (threshold < scoreOf e)))

/-- Modelled from the spec (§4.1 query): `limit` caps the result count;
omitted limit returns all entries above the threshold. -/
def query (store : List MemoryContent) (text : String) (threshold : ℚ)
    (limit : Option Nat) : List MemoryContent :=
  match limit with
  | none => queryAll store text threshold
  | some k => (queryAll store text threshold).take k

/-- Modelled from the spec (§4.1 query as an operation on the store
state): returns the ranked scored copies together with the store, which
is returned unchanged. -/
def queryS (store : List MemoryContent) (text : String) (threshold : ℚ) :
    List MemoryContent × List MemoryContent :=
  (queryAll store text threshold, store)

/-- Modelled from the spec (§4.1 add): appends the entry; a malformed
entry (missing content) is an InvalidEntryError. -/
def add (store : List MemoryContent) (e : MemoryContent) :
    Except String (List MemoryContent) :=
  if e.content.isEmpty then .error "InvalidEntryError" else .ok (store ++ [e])

/-- Modelled from the spec (§4.1 clear): empties the store. -/
def clear (_ : List MemoryContent) : List MemoryContent := []

/-- Modelled from the spec (§4.1 transform): the fixed explanatory
sentence prefixing the injected memory message, as recorded in the
tutorial notebook. -/
def memoryHeader : String :=
  "\n The following results were retrieved from memory for this task. You may choose to use them or not. :\n"

/-- Modelled from the spec (§4.1 transform): render each result's content
as a numbered line, numbering from `i`. -/
def numberLinesFrom (i : Nat) : List MemoryContent → String
  | [] => ""
  | r :: rs => toString i ++ ". " ++ r.content ++ "\n" ++ numberLinesFrom (i + 1) rs

/-- Numbered lines starting at 1. -/
def numberedLines (rs : List MemoryContent) : String := numberLinesFrom 1 rs

/-- Modelled from the spec (§4.1 transform): on a non-empty result set,
append a single memory-derived System message listing each result's
content as a numbered line prefixed with the fixed explanatory sentence;
on an empty result set, a no-op. -/
def transform (ctx : List ContextMessage) (rs : List MemoryContent) : List ContextMessage :=
  match rs with
  | [] => ctx
  | _ :: _ => ctx ++ [ContextMessage.system (memoryHeader ++ numberedLines rs) true]

end ListMemory

/-! ## Tool Registry & Executor (§4.3) -/

/-- Modelled from the spec (§6 Tool interface): name, argument validator
standing for the signature schema, and the implementation. -/
structure Tool where
  name : String
  validate : String → Bool
  invoke : String → String

/-- Modelled from the spec (§4.3 execute): validates arguments, converts
unknown-tool and invalid-argument failures into a ToolResult whose
content encodes the error (never raises past this boundary), and always
pairs the result with the request by callId. -/
def execute (tools : List Tool) (req : ToolCallRequest) : ToolResult :=
  match tools.find? (fun t => t.name == req.name) with
  | none => { callId := req.id, content := "ToolNotFoundError: unknown tool " ++ req.name }
  | some t =>
    if t.validate req.arguments then { callId := req.id, content := t.invoke req.arguments }
    else { callId := req.id, content := "ToolArgumentError: invalid arguments for " ++ req.name }

/-- Modelled from the spec (§4.4 ToolDispatch): execute all pending
requests of one round; all requested calls execute before the next model
invocation. -/
def executeRound (tools : List Tool) (reqs : List ToolCallRequest) : List ToolResult :=
  reqs.map (execute tools)

/-! ## Turn Engine (§4.4) -/

/-- Modelled from the spec (§6 Model Gateway contract): the gateway
returns either a text completion or tool-call requests, with usage
counters; `empty` is the malformed neither-text-nor-tool-calls response
of §4.4. -/
inductive GatewayOutput where
  | text (s : String) (usage : RequestUsage)
  | toolCalls (reqs : List ToolCallRequest) (usage : RequestUsage)
  | empty

/-- Modelled from the spec (§6 Memory Store interface): the capability a
store exposes to the Turn Engine; a failing backing service surfaces as
a MemoryUnavailableError value. -/
structure MemoryStore where
  queryStore : String → Except String (List MemoryContent)

/-- Modelled from the spec (§4.4): the configuration of one Turn Engine:
event source name, max-turn cap, attached memory stores in attachment
order, the Model Gateway (indexed by invocation count), and the tool
registry. -/
structure EngineConfig where
  source : String
  maxTurns : Nat
  stores : List MemoryStore
  gateway : Nat → List ContextMessage → GatewayOutput
  tools : List Tool

/-- Modelled from the spec (§4.4 MemoryQuery): the event one store
contributes — a MemoryQueryEvent on success (also for empty results), a
degraded event when the store is unavailable. -/
def storeEvent (source text : String) (st : MemoryStore) : Event :=
  match st.queryStore text with
  | .ok rs => .memoryQueryEvent source rs
  | .error e => .memoryDegradedEvent source e

/-- Modelled from the spec (§4.4 MemoryQuery): each store is queried in
attachment order and its results transformed into the context buffer; an
unavailable store is skipped. -/
def memoryCtx (stores : List MemoryStore) (text : String)
    (ctx : List ContextMessage) : List ContextMessage :=
  stores.foldl
    (fun c st =>
      match st.queryStore text with
      | .ok rs => ListMemory.transform c rs
      | .error _ => c)
    ctx

/-- Modelled from the spec (§4.4 ToolDispatch): the messages one dispatch
round appends to the context buffer — the assistant message carrying the
requests, then each ToolResult in request order. -/
def roundMessages (tools : List Tool) (reqs : List ToolCallRequest) : List ContextMessage :=
  ContextMessage.assistant "" reqs :: (executeRound tools reqs).map ContextMessage.toolResult

/-- Modelled from the spec (§4.4 ModelInvoke/ToolDispatch loop): the
engine loop, structurally bounded by the remaining turn budget `fuel`.
Returns the events emitted from this point on, the stop reason, and the
final context buffer.  A text response completes the turn (as a
ToolCallSummaryMessage when at least one tool round already ran,
otherwise as a TextMessage); an empty response forces Complete with
stop reason "empty_model_response"; a tool-call response with the budget
exhausted forces Complete with stop reason "max_turns_exceeded". -/
def runLoop (source : String) (gateway : Nat → List ContextMessage → GatewayOutput)
    (tools : List Tool) : Nat → Nat → Bool → List ContextMessage →
    List Event × Option String × List ContextMessage
  | fuel, idx, hadRound, ctx =>
    match gateway idx ctx with
    | .text s u =>
      if hadRound then
        ([Event.toolCallSummaryMessage source s], none, ctx ++ [ContextMessage.assistant s []])
      else
        ([Event.textMessage source s (some u)], none, ctx ++ [ContextMessage.assistant s []])
    | .empty => ([], some "empty_model_response", ctx)
    | .toolCalls [] _ => ([], some "empty_model_response", ctx)
    | .toolCalls (r :: rs) u =>
      match fuel with
      | 0 => ([], some "max_turns_exceeded", ctx)
      | f + 1 =>
        let reqs := r :: rs
        let results := executeRound tools reqs
        let rest := runLoop source gateway tools f (idx + 1) true (ctx ++ roundMessages tools reqs)
        (Event.toolCallRequestEvent source reqs (some u) ::
           Event.toolCallExecutionEvent source results :: rest.1,
         rest.2.1, rest.2.2)

/-- Modelled from the spec (§4.4 run): append the task as a User message,
run the MemoryQuery phase, then the ModelInvoke/ToolDispatch loop;
returns the TaskResult (whose messages start with the task's user event
and the per-store memory events, as the notebook records) and the final
context buffer. -/
def run (cfg : EngineConfig) (task : String) : TaskResult × List ContextMessage :=
  let ctx1 := memoryCtx cfg.stores task [ContextMessage.user task]
  let memEvents := cfg.stores.map (storeEvent cfg.source task)
  let out := runLoop cfg.source cfg.gateway cfg.tools cfg.maxTurns 0 false ctx1
  ({ messages := Event.textMessage "user" task none :: memEvents ++ out.1,
     stopReason := out.2.1 }, out.2.2)

/-! ## Streaming interface (§6) -/

/-- Modelled from the spec (§6 Streaming consumer interface): one item of
the finite event stream, terminated by a final TaskResult sentinel. -/
inductive StreamItem where
  | event (e : Event)
  | result (r : TaskResult)
deriving DecidableEq

/-- Modelled from the spec (§6): the streaming loop — each engine step
yields its events as they happen, and the stream ends with the sentinel
carrying the full TaskResult (`acc` being the events already yielded). -/
def runStreamLoop (source : String) (gateway : Nat → List ContextMessage → GatewayOutput)
    (tools : List Tool) : Nat → Nat → Bool → List ContextMessage →
    List Event → List StreamItem
  | fuel, idx, hadRound, ctx, acc =>
    match gateway idx ctx with
    | .text s u =>
      let ev := if hadRound then Event.toolCallSummaryMessage source s
                else Event.textMessage source s (some u)
      [StreamItem.event ev, StreamItem.result { messages := acc ++ [ev], stopReason := none }]
    | .empty => [StreamItem.result { messages := acc, stopReason := some "empty_model_response" }]
    | .toolCalls [] _ =>
      [StreamItem.result { messages := acc, stopReason := some "empty_model_response" }]
    | .toolCalls (r :: rs) u =>
      match fuel with
      | 0 => [StreamItem.result { messages := acc, stopReason := some "max_turns_exceeded" }]
      | f + 1 =>
        let reqs := r :: rs
        let e1 := Event.toolCallRequestEvent source reqs (some u)
        let e2 := Event.toolCallExecutionEvent source (executeRound tools reqs)
        StreamItem.event e1 :: StreamItem.event e2 ::
          runStreamLoop source gateway tools f (idx + 1) true (ctx ++ roundMessages tools reqs)
            (acc ++ [e1, e2])

/-- Modelled from the spec (§6 run_stream): the lazy, forward-only,
finite stream of events of one run, terminated by the TaskResult
sentinel. -/
def runStream (cfg : EngineConfig) (task : String) : List StreamItem :=
  let ctx1 := memoryCtx cfg.stores task [ContextMessage.user task]
  let memEvents := cfg.stores.map (storeEvent cfg.source task)
  StreamItem.event (Event.textMessage "user" task none) ::
    memEvents.map StreamItem.event ++
      runStreamLoop cfg.source cfg.gateway cfg.tools cfg.maxTurns 0 false ctx1
        (Event.textMessage "user" task none :: memEvents)

/-! ## Cancellation (§5) -/

/-- Modelled from the spec (§5 Cancellation): the engine loop with a
cancellation signal observed at suspension points.  Suspension points are
numbered globally: one before each Model Gateway call, then one per tool
execution of a dispatch round.  A cancellation observed within a round
leaves the round's results out of the buffer entirely (partial
tool-result sets are either fully appended or not at all).  Returns the
events, stop reason, final context buffer, and the next unused suspension
point number. -/
def runCLoop (source : String) (gateway : Nat → List ContextMessage → GatewayOutput)
    (tools : List Tool) (cancel : Nat → Bool) :
    Nat → Nat → Nat → Bool → List ContextMessage →
    List Event × Option String × List ContextMessage × Nat
  | fuel, idx, sp, hadRound, ctx =>
    if cancel sp then ([], some "cancelled", ctx, sp + 1)
    else
      match gateway idx ctx with
      | .text s u =>
        if hadRound then
          ([Event.toolCallSummaryMessage source s], none,
           ctx ++ [ContextMessage.assistant s []], sp + 1)
        else
          ([Event.textMessage source s (some u)], none,
           ctx ++ [ContextMessage.assistant s []], sp + 1)
      | .empty => ([], some "empty_model_response", ctx, sp + 1)
      | .toolCalls [] _ => ([], some "empty_model_response", ctx, sp + 1)
      | .toolCalls (r :: rs) u =>
        match fuel with
        | 0 => ([], some "max_turns_exceeded", ctx, sp + 1)
        | f + 1 =>
          let reqs := r :: rs
          if (List.range reqs.length).any (fun j => cancel (sp + 1 + j)) then
            ([], some "cancelled", ctx, sp + 1 + reqs.length)
          else
            let rest := runCLoop source gateway tools cancel f (idx + 1)
              (sp + 1 + reqs.length) true (ctx ++ roundMessages tools reqs)
            (Event.toolCallRequestEvent source reqs (some u) ::
               Event.toolCallExecutionEvent source (executeRound tools reqs) :: rest.1,
             rest.2.1, rest.2.2.1, rest.2.2.2)

/-- Modelled from the spec (§5): `run` under a cancellation signal;
returns the TaskResult, the final context buffer and the number of
suspension points consumed. -/
def runC (cfg : EngineConfig) (cancel : Nat → Bool) (task : String) :
    TaskResult × List ContextMessage × Nat :=
  let ctx1 := memoryCtx cfg.stores task [ContextMessage.user task]
  let memEvents := cfg.stores.map (storeEvent cfg.source task)
  let out := runCLoop cfg.source cfg.gateway cfg.tools cancel cfg.maxTurns 0 0 false ctx1
  ({ messages := Event.textMessage "user" task none :: memEvents ++ out.1,
     stopReason := out.2.1 }, out.2.2.1, out.2.2.2)

/-! ## Context-buffer well-formedness (§3, §4.2) -/

/-- Modelled from the spec (§3 ContextMessage invariant, §4.2): scan the
buffer with the list of tool-call requests still awaiting their results;
every assistant message carrying calls must be followed by exactly its
results in request order, each paired by callId, and a ToolResult with no
matching pending call is an error. -/
def ctxWfAux : List ToolCallRequest → List ContextMessage → Bool
  | [], [] => true
  | [], ContextMessage.assistant _ calls :: rest => ctxWfAux calls rest
  | [], ContextMessage.toolResult _ :: _ => false
  | [], ContextMessage.system _ _ :: rest => ctxWfAux [] rest
  | [], ContextMessage.user _ :: rest => ctxWfAux [] rest
  | q :: qs, ContextMessage.toolResult r :: rest => r.callId == q.id && ctxWfAux qs rest
  | _ :: _, _ => false

/-- A buffer is well formed when the scan starts and ends with no pending
requests. -/
def ctxWf (ctx : List ContextMessage) : Bool := ctxWfAux [] ctx

/-! ## Event observations -/

/-- Whether an event is a ToolCallExecutionEvent (one per dispatch round). -/
def isToolExec : Event → Bool
  | .toolCallExecutionEvent _ _ => true
  | _ => false

/-- Whether an event is a ToolCallSummaryMessage. -/
def isSummary : Event → Bool
  | .toolCallSummaryMessage _ _ => true
  | _ => false

/-- Number of dispatch rounds recorded in an event list. -/
def countToolExec (evs : List Event) : Nat := evs.countP isToolExec

/-! ## Lemmas on the similarity measure -/

theorem lcs_nil_left (bs : List Char) : lcs [] bs = 0 := by
  cases bs <;> simp [lcs]

theorem lcs_nil_right (as : List Char) : lcs as [] = 0 := by
  cases as <;> simp [lcs]

theorem lcs_comm : ∀ as bs : List Char, lcs as bs = lcs bs as := by
  intro as
  induction as with
  | nil => intro bs; rw [lcs_nil_left, lcs_nil_right]
  | cons a as ih =>
    intro bs
    induction bs with
    | nil => rw [lcs_nil_left, lcs_nil_right]
    | cons b bs ih2 =>
      by_cases h : a = b
      · subst h
        simp [lcs, ih bs]
      · have h' : ¬ b = a := fun hh => h hh.symm
        simp only [lcs, if_neg h, if_neg h']
        rw [ih2, ih (b :: bs), Nat.max_comm]

theorem lcs_le_left : ∀ as bs : List Char, lcs as bs ≤ as.length := by
  intro as
  induction as with
  | nil => intro bs; rw [lcs_nil_left]; exact Nat.zero_le _
  | cons a as ih =>
    intro bs
    induction bs with
    | nil => rw [lcs_nil_right]; exact Nat.zero_le _
    | cons b bs ih2 =>
      by_cases h : a = b
      · simpa [lcs, h] using Nat.succ_le_succ (ih bs)
      · simp only [lcs, if_neg h]
        exact Nat.max_le.mpr ⟨ih2, Nat.le_trans (ih (b :: bs)) (by simp)⟩

theorem lcs_le_right (as bs : List Char) : lcs as bs ≤ bs.length := by
  rw [lcs_comm]; exact lcs_le_left bs as

theorem string_length_eq_data (s : String) : s.length = s.data.length := rfl

theorem similarity_comm (a b : String) : similarity a b = similarity b a := by
  unfold similarity
  rw [Nat.add_comm a.length b.length, lcs_comm a.data b.data]

theorem similarity_nonneg (a b : String) : 0 ≤ similarity a b := by
  unfold similarity
  split
  · exact zero_le_one
  · apply div_nonneg
    · positivity
    · positivity

theorem similarity_le_one (a b : String) : similarity a b ≤ 1 := by
  unfold similarity
  split
  · exact le_refl 1
  · rename_i h
    have htot : 2 * lcs a.data b.data ≤ a.length + b.length := by
      have h1 : lcs a.data b.data ≤ a.length := by
        rw [string_length_eq_data]; exact lcs_le_left _ _
      have h2 : lcs a.data b.data ≤ b.length := by
        rw [string_length_eq_data]; exact lcs_le_right _ _
      omega
    have hpos : (0 : ℚ) ≤ ((a.length + b.length : ℕ) : ℚ) := by positivity
    apply div_le_one_of_le₀ _ hpos
    have : ((2 * lcs a.data b.data : ℕ) : ℚ) ≤ ((a.length + b.length : ℕ) : ℚ) := by
      exact_mod_cast htot
    calc 2 * (lcs a.data b.data : ℚ) = ((2 * lcs a.data b.data : ℕ) : ℚ) := by push_cast; ring
    _ ≤ ((a.length + b.length : ℕ) : ℚ) := this

/-! ## Lemmas on the ranking -/

theorem mem_insertEntry (y e : MemoryContent) :
    ∀ l : List MemoryContent, y ∈ insertEntry e l ↔ y = e ∨ y ∈ l := by
  intro l
  induction l with
  | nil => simp [insertEntry]
  | cons x xs ih =>
    by_cases hc : scoreOf x ≤ scoreOf e
    · simp [insertEntry, hc]
    · simp only [insertEntry, if_neg hc, List.mem_cons, ih]
      tauto

theorem pairwise_insertEntry (e : MemoryContent) (l : List MemoryContent)
    (h : List.Pairwise (fun a b => scoreOf b ≤ scoreOf a) l) :
    List.Pairwise (fun a b => scoreOf b ≤ scoreOf a) (insertEntry e l) := by
  induction l with
  | nil => simp [insertEntry]
  | cons x xs ih =>
    rcases List.pairwise_cons.mp h with ⟨hx, hxs⟩
    by_cases hc : scoreOf x ≤ scoreOf e
    · simp only [insertEntry, if_pos hc]
      refine List.pairwise_cons.mpr ⟨?_, h⟩
      intro y hy
      rcases List.mem_cons.mp hy with rfl | hy'
      · exact hc
      · exact le_trans (hx y hy') hc
    · simp only [insertEntry, if_neg hc]
      refine List.pairwise_cons.mpr ⟨?_, ih hxs⟩
      intro y hy
      rcases (mem_insertEntry y e xs).mp hy with rfl | hy'
      · exact le_of_lt (not_le.mp hc)
      · exact hx y hy'

theorem pairwise_rankEntries (l : List MemoryContent) :
    List.Pairwise (fun a b => scoreOf b ≤ scoreOf a) (rankEntries l) := by
  induction l with
  | nil => simp [rankEntries]
  | cons x xs ih => exact pairwise_insertEntry x (rankEntries xs) ih

theorem filter_insertEntry (e : MemoryContent) (q : ℚ) :
    ∀ l : List MemoryContent,
      (insertEntry e l).filter (fun x => decide (scoreOf x = q)) =
        if scoreOf e = q then e :: l.filter (fun x => decide (scoreOf x = q))
        else l.filter (fun x => decide (scoreOf x = q)) := by
  intro l
  induction l with
  | nil =>
    by_cases hq : scoreOf e = q <;> simp [insertEntry, List.filter, hq]
  | cons x xs ih =>
    by_cases hc : scoreOf x ≤ scoreOf e
    · rw [insertEntry, if_pos hc]
      by_cases hq : scoreOf e = q <;> simp [List.filter_cons, hq]
    · rw [insertEntry, if_neg hc]
      have hlt : scoreOf e < scoreOf x := not_le.mp hc
      by_cases hq : scoreOf e = q
      · have hx : ¬ scoreOf x = q := by
          intro hxq
          rw [hq, hxq] at hlt
          exact lt_irrefl q hlt
        simp [List.filter_cons, hx, hq, ih]
      · simp [List.filter_cons, hq, ih]

theorem filter_rankEntries (q : ℚ) :
    ∀ l : List MemoryContent,
      (rankEntries l).filter (fun x => decide (scoreOf x = q)) =
        l.filter (fun x => decide (scoreOf x = q)) := by
  intro l
  induction l with
  | nil => rfl
  | cons x xs ih =>
    rw [rankEntries, filter_insertEntry]
    by_cases hq : scoreOf x = q <;> simp [List.filter, hq, ih]

theorem mem_rankEntries (y : MemoryContent) :
    ∀ l : List MemoryContent, y ∈ rankEntries l ↔ y ∈ l := by
  intro l
  induction l with
  | nil => simp [rankEntries]
  | cons x xs ih =>
    rw [rankEntries, mem_insertEntry]
    simp [ih]

/-! ## Claim theorems: Memory Store -/

/-- C2: for every query text and store state, `query` returns entries
ordered by similarity score, highest first: scores are non-increasing
across the returned sequence; ties are broken by insertion order (for
each score value, the entries holding it appear exactly in store order);
and the reference similarity measure (longest-matching-subsequence
ratio) is symmetric and lies in `[0, 1]`. -/
theorem query_ranking_contract :
    ∀ (store : List MemoryContent) (text : String) (threshold : ℚ) (limit : Option Nat),
      List.Pairwise (fun a b => scoreOf b ≤ scoreOf a)
        (ListMemory.query store text threshold limit)
      ∧ (∀ q : ℚ,
          (ListMemory.queryAll store text threshold).filter (fun e => decide (scoreOf e = q)) =
            ((ListMemory.scoredList store text).filter
                (fun e => decide (threshold < scoreOf e))).filter
              (fun e => decide (scoreOf e = q)))
      ∧ (∀ a b : String, similarity a b = similarity b a)
      ∧ (∀ a b : String, 0 ≤ similarity a b ∧ similarity a b ≤ 1) := by
  intro store text threshold limit
  refine ⟨?_, ?_, similarity_comm, fun a b => ⟨similarity_nonneg a b, similarity_le_one a b⟩⟩
  · cases limit with
    | none => exact pairwise_rankEntries _
    | some k =>
      exact List.Pairwise.sublist (List.take_sublist _ _) (pairwise_rankEntries _)
  · intro q
    exact filter_rankEntries q _

/-- C4: `transform` on a non-empty result sequence appends exactly one
memory-derived System message (the fixed explanatory sentence followed by
one numbered line per result), increasing the buffer length by exactly 1;
on an empty result sequence it appends nothing, leaving the buffer
unchanged. -/
theorem transform_single_memory_message :
    ∀ (ctx : List ContextMessage) (rs : List MemoryContent),
      ListMemory.transform ctx [] = ctx
      ∧ (rs ≠ [] →
          ListMemory.transform ctx rs =
            ctx ++ [ContextMessage.system
              (ListMemory.memoryHeader ++ ListMemory.numberedLines rs) true]
          ∧ (ListMemory.transform ctx rs).length = ctx.length + 1) := by
  intro ctx rs
  refine ⟨rfl, ?_⟩
  intro h
  match rs, h with
  | r :: rs', _ =>
    refine ⟨rfl, ?_⟩
    simp [ListMemory.transform]

/-- Witness for C4 at a concrete buffer and result set. -/
theorem transform_single_memory_message_witness :
    ListMemory.transform [ContextMessage.user "hi"] [{ content := "a" }] =
      [ContextMessage.user "hi",
       ContextMessage.system
         (ListMemory.memoryHeader ++ ListMemory.numberedLines [{ content := "a" }]) true]
    ∧ (ListMemory.transform [ContextMessage.user "hi"] [{ content := "a" }]).length =
        [ContextMessage.user "hi"].length + 1 :=
  (transform_single_memory_message [ContextMessage.user "hi"] [{ content := "a" }]).2
    (by decide)

/-- C9: `query` leaves every stored entry unchanged (the store component
of the stateful query is the store itself), returns scored copies of
stored entries only, and its results never depend on score fields already
present in the store — so a later query is independent of any earlier
query's scores. -/
theorem query_never_mutates_store :
    ∀ (s : List MemoryContent) (t : String) (threshold : ℚ),
      (ListMemory.queryS s t threshold).2 = s
      ∧ (∀ e ∈ (ListMemory.queryS s t threshold).1, ∃ e₀ ∈ s,
            e = { e₀ with score := some (similarity t e₀.content) })
      ∧ (∀ t' θ', ListMemory.queryS (ListMemory.queryS s t' θ').2 t threshold =
            ListMemory.queryS s t threshold)
      ∧ (∀ g : MemoryContent → Option ℚ,
            ListMemory.queryAll (s.map (fun e => { e with score := g e })) t threshold =
              ListMemory.queryAll s t threshold) := by
  intro s t threshold
  refine ⟨rfl, ?_, fun _ _ => rfl, ?_⟩
  · intro e he
    have he1 : e ∈ ListMemory.queryAll s t threshold := he
    rw [ListMemory.queryAll, mem_rankEntries] at he1
    have he2 := List.mem_filter.mp he1
    rcases List.mem_map.mp he2.1 with ⟨e₀, he₀, rfl⟩
    exact ⟨e₀, he₀, rfl⟩
  · intro g
    rw [ListMemory.queryAll, ListMemory.queryAll, ListMemory.scoredList,
      ListMemory.scoredList, List.map_map]
    rfl

/-- Witness for C9: the scored copy returned for a concrete one-entry
store is a copy of a stored entry. -/
theorem query_never_mutates_store_witness :
    ∃ e₀ ∈ [({ content := "ab" } : MemoryContent)],
      ({ content := "ab", score := some (similarity "ab" "ab") } : MemoryContent) =
        { e₀ with score := some (similarity "ab" e₀.content) } :=
  (query_never_mutates_store [{ content := "ab" }] "ab" (1/2)).2.1
    { content := "ab", score := some (similarity "ab" "ab") } (by
      have hsim : similarity "ab" "ab" = 1 := by
        have hl : lcs "ab".data "ab".data = 2 := by
          show lcs ['a', 'b'] ['a', 'b'] = 2
          simp [lcs]
        rw [similarity, hl, show ("ab".length = 2) from rfl]
        norm_num
      show _ ∈ ListMemory.queryAll [{ content := "ab" }] "ab" (1/2)
      rw [ListMemory.queryAll, mem_rankEntries, List.mem_filter]
      refine ⟨?_, ?_⟩
      · rw [ListMemory.scoredList]
        simp
      · simp [scoreOf, hsim]
        norm_num)

/-! ## Lemmas on the Tool Executor and the buffer invariant -/

theorem execute_callId (tools : List Tool) (req : ToolCallRequest) :
    (execute tools req).callId = req.id := by
  unfold execute
  split
  · rfl
  · split <;> rfl

theorem executeRound_pending (tools : List Tool) :
    ∀ reqs : List ToolCallRequest,
      ctxWfAux reqs ((executeRound tools reqs).map ContextMessage.toolResult) = true := by
  intro reqs
  induction reqs with
  | nil => rfl
  | cons q qs ih =>
    show ctxWfAux (q :: qs)
      (ContextMessage.toolResult (execute tools q) ::
        (executeRound tools qs).map ContextMessage.toolResult) = true
    simp only [ctxWfAux, Bool.and_eq_true]
    exact ⟨by simp [execute_callId], ih⟩

theorem roundMessages_wf (tools : List Tool) (reqs : List ToolCallRequest) :
    ctxWfAux [] (roundMessages tools reqs) = true := by
  rw [roundMessages]
  simp only [ctxWfAux]
  exact executeRound_pending tools reqs

theorem ctxWfAux_append (suffix : List ContextMessage)
    (hs : ctxWfAux [] suffix = true) :
    ∀ (ctx : List ContextMessage) (p : List ToolCallRequest),
      ctxWfAux p ctx = true → ctxWfAux p (ctx ++ suffix) = true := by
  intro ctx
  induction ctx with
  | nil =>
    intro p hp
    cases p with
    | nil => simpa using hs
    | cons q qs => simp [ctxWfAux] at hp
  | cons m rest ih =>
    intro p hp
    cases p with
    | nil =>
      cases m with
      | system c d =>
        simp only [ctxWfAux] at hp
        simp only [List.cons_append, ctxWfAux]
        exact ih [] hp
      | user c =>
        simp only [ctxWfAux] at hp
        simp only [List.cons_append, ctxWfAux]
        exact ih [] hp
      | assistant c calls =>
        simp only [ctxWfAux] at hp
        simp only [List.cons_append, ctxWfAux]
        exact ih calls hp
      | toolResult r => simp [ctxWfAux] at hp
    | cons q qs =>
      cases m with
      | toolResult r =>
        simp only [ctxWfAux, Bool.and_eq_true] at hp
        simp only [List.cons_append, ctxWfAux, Bool.and_eq_true]
        exact ⟨hp.1, ih qs hp.2⟩
      | system c d => simp [ctxWfAux] at hp
      | user c => simp [ctxWfAux] at hp
      | assistant c calls => simp [ctxWfAux] at hp

theorem transform_wf (ctx : List ContextMessage) (rs : List MemoryContent)
    (h : ctxWf ctx = true) : ctxWf (ListMemory.transform ctx rs) = true := by
  cases rs with
  | nil => exact h
  | cons r rs' =>
    show ctxWf (ctx ++ [ContextMessage.system
      (ListMemory.memoryHeader ++ ListMemory.numberedLines (r :: rs')) true]) = true
    exact ctxWfAux_append _ (by simp [ctxWf, ctxWfAux]) ctx [] h

theorem memoryCtx_wf (text : String) :
    ∀ (stores : List MemoryStore) (ctx : List ContextMessage),
      ctxWf ctx = true → ctxWf (memoryCtx stores text ctx) = true := by
  intro stores
  induction stores with
  | nil => intro ctx h; exact h
  | cons st sts ih =>
    intro ctx h
    rw [memoryCtx, List.foldl_cons]
    cases hq : st.queryStore text with
    | ok rs =>
      simp only [hq]
      exact ih _ (transform_wf ctx rs h)
    | error e =>
      simp only [hq]
      exact ih _ h

/-! ## Claim theorem: tool-call pairing (C3) -/

/-- C3: in every dispatch round the number of ToolResults equals the
number of ToolCallRequests, the i-th result is paired with the i-th
request (`callId = id`, sequence order preserved), under unique request
ids each result's callId matches exactly one request, and appending the
round to a well-formed context buffer keeps it well formed (requests
immediately followed by their full result set; nothing reordered or
dropped). -/
theorem dispatch_round_pairing :
    ∀ (tools : List Tool) (reqs : List ToolCallRequest),
      (executeRound tools reqs).length = reqs.length
      ∧ (∀ i : Nat, ((executeRound tools reqs)[i]?).map ToolResult.callId
            = (reqs[i]?).map ToolCallRequest.id)
      ∧ ((reqs.map ToolCallRequest.id).Nodup →
          ∀ res ∈ executeRound tools reqs,
            (reqs.map ToolCallRequest.id).count res.callId = 1)
      ∧ (∀ ctx : List ContextMessage, ctxWf ctx = true →
          ctxWf (ctx ++ roundMessages tools reqs) = true) := by
  intro tools reqs
  refine ⟨by simp [executeRound], ?_, ?_, ?_⟩
  · intro i
    rw [executeRound, List.getElem?_map]
    cases reqs[i]? with
    | none => rfl
    | some q => simp [execute_callId]
  · intro hnd res hres
    rcases List.mem_map.mp hres with ⟨q, hq, rfl⟩
    rw [execute_callId]
    exact List.count_eq_one_of_mem hnd (List.mem_map.mpr ⟨q, hq, rfl⟩)
  · intro ctx h
    exact ctxWfAux_append _ (roundMessages_wf tools reqs) ctx [] h

/-- Witness for C3 at a concrete registry and round. -/
theorem dispatch_round_pairing_witness :
    (executeRound [] [ToolCallRequest.mk "c1" "f" "x", ToolCallRequest.mk "c2" "g" "y"]).length = 2
    ∧ (([ToolCallRequest.mk "c1" "f" "x", ToolCallRequest.mk "c2" "g" "y"].map
          ToolCallRequest.id).count
        (execute [] (ToolCallRequest.mk "c1" "f" "x")).callId = 1) := by
  refine ⟨(dispatch_round_pairing [] _).1, ?_⟩
  exact (dispatch_round_pairing []
    [ToolCallRequest.mk "c1" "f" "x", ToolCallRequest.mk "c2" "g" "y"]).2.2.1
    (by decide) (execute [] (ToolCallRequest.mk "c1" "f" "x")) (by decide)

/-! ## Lemmas on the Turn Engine loop -/

theorem runLoop_text (source : String) (gw : Nat → List ContextMessage → GatewayOutput)
    (tools : List Tool) (fuel idx : Nat) (hr : Bool) (ctx : List ContextMessage)
    (s : String) (u : RequestUsage) (h : gw idx ctx = GatewayOutput.text s u) :
    runLoop source gw tools fuel idx hr ctx =
      if hr then ([Event.toolCallSummaryMessage source s], none,
        ctx ++ [ContextMessage.assistant s []])
      else ([Event.textMessage source s (some u)], none,
        ctx ++ [ContextMessage.assistant s []]) := by
  cases fuel <;> rw [runLoop, h]

theorem runLoop_empty_stop (source : String)
    (gw : Nat → List ContextMessage → GatewayOutput) (tools : List Tool)
    (fuel idx : Nat) (hr : Bool) (ctx : List ContextMessage)
    (h : gw idx ctx = GatewayOutput.empty) :
    runLoop source gw tools fuel idx hr ctx = ([], some "empty_model_response", ctx) := by
  cases fuel <;> rw [runLoop, h]

theorem runLoop_tools_nil (source : String) (gw : Nat → List ContextMessage → GatewayOutput)
    (tools : List Tool) (fuel idx : Nat) (hr : Bool) (ctx : List ContextMessage)
    (u : RequestUsage) (h : gw idx ctx = GatewayOutput.toolCalls [] u) :
    runLoop source gw tools fuel idx hr ctx = ([], some "empty_model_response", ctx) := by
  cases fuel <;> rw [runLoop, h]

theorem runLoop_tools_zero (source : String) (gw : Nat → List ContextMessage → GatewayOutput)
    (tools : List Tool) (idx : Nat) (hr : Bool) (ctx : List ContextMessage)
    (r : ToolCallRequest) (rs : List ToolCallRequest) (u : RequestUsage)
    (h : gw idx ctx = GatewayOutput.toolCalls (r :: rs) u) :
    runLoop source gw tools 0 idx hr ctx = ([], some "max_turns_exceeded", ctx) := by
  rw [runLoop, h]

theorem runLoop_tools_step (source : String) (gw : Nat → List ContextMessage → GatewayOutput)
    (tools : List Tool) (f idx : Nat) (hr : Bool) (ctx : List ContextMessage)
    (r : ToolCallRequest) (rs : List ToolCallRequest) (u : RequestUsage)
    (h : gw idx ctx = GatewayOutput.toolCalls (r :: rs) u) :
    runLoop source gw tools (f + 1) idx hr ctx =
      (Event.toolCallRequestEvent source (r :: rs) (some u) ::
         Event.toolCallExecutionEvent source (executeRound tools (r :: rs)) ::
           (runLoop source gw tools f (idx + 1) true (ctx ++ roundMessages tools (r :: rs))).1,
       (runLoop source gw tools f (idx + 1) true (ctx ++ roundMessages tools (r :: rs))).2.1,
       (runLoop source gw tools f (idx + 1) true (ctx ++ roundMessages tools (r :: rs))).2.2) := by
  rw [runLoop, h]

theorem runLoop_toolexec_le (source : String)
    (gw : Nat → List ContextMessage → GatewayOutput) (tools : List Tool) :
    ∀ (fuel idx : Nat) (hr : Bool) (ctx : List ContextMessage),
      countToolExec (runLoop source gw tools fuel idx hr ctx).1 ≤ fuel := by
  intro fuel
  induction fuel with
  | zero =>
    intro idx hr ctx
    cases h : gw idx ctx with
    | text s u =>
      rw [runLoop_text source gw tools 0 idx hr ctx s u h]
      cases hr <;> simp [countToolExec, isToolExec]
    | empty => rw [runLoop_empty_stop source gw tools 0 idx hr ctx h]; simp [countToolExec]
    | toolCalls reqs u =>
      cases reqs with
      | nil => rw [runLoop_tools_nil source gw tools 0 idx hr ctx u h]; simp [countToolExec]
      | cons r rs =>
        rw [runLoop_tools_zero source gw tools idx hr ctx r rs u h]
        simp [countToolExec]
  | succ f ih =>
    intro idx hr ctx
    cases h : gw idx ctx with
    | text s u =>
      rw [runLoop_text source gw tools (f + 1) idx hr ctx s u h]
      cases hr <;> simp [countToolExec, isToolExec]
    | empty =>
      rw [runLoop_empty_stop source gw tools (f + 1) idx hr ctx h]
      simp [countToolExec]
    | toolCalls reqs u =>
      cases reqs with
      | nil =>
        rw [runLoop_tools_nil source gw tools (f + 1) idx hr ctx u h]
        simp [countToolExec]
      | cons r rs =>
        rw [runLoop_tools_step source gw tools f idx hr ctx r rs u h]
        have hle := ih (idx + 1) true (ctx ++ roundMessages tools (r :: rs))
        simp only [countToolExec, List.countP_cons] at hle ⊢
        simp [isToolExec]
        omega

theorem runLoop_always_tools_stop (source : String)
    (gw : Nat → List ContextMessage → GatewayOutput) (tools : List Tool)
    (hg : ∀ idx ctx, ∃ r rs u, gw idx ctx = GatewayOutput.toolCalls (r :: rs) u) :
    ∀ (fuel idx : Nat) (hr : Bool) (ctx : List ContextMessage),
      (runLoop source gw tools fuel idx hr ctx).2.1 = some "max_turns_exceeded" := by
  intro fuel
  induction fuel with
  | zero =>
    intro idx hr ctx
    obtain ⟨r, rs, u, h⟩ := hg idx ctx
    rw [runLoop_tools_zero source gw tools idx hr ctx r rs u h]
  | succ f ih =>
    intro idx hr ctx
    obtain ⟨r, rs, u, h⟩ := hg idx ctx
    rw [runLoop_tools_step source gw tools f idx hr ctx r rs u h]
    exact ih (idx + 1) true (ctx ++ roundMessages tools (r :: rs))

theorem runLoop_events_len (source : String)
    (gw : Nat → List ContextMessage → GatewayOutput) (tools : List Tool) :
    ∀ (fuel idx : Nat) (hr : Bool) (ctx : List ContextMessage),
      (runLoop source gw tools fuel idx hr ctx).1.length ≤ 2 * fuel + 1 := by
  intro fuel
  induction fuel with
  | zero =>
    intro idx hr ctx
    cases h : gw idx ctx with
    | text s u =>
      rw [runLoop_text source gw tools 0 idx hr ctx s u h]
      cases hr <;> simp
    | empty => rw [runLoop_empty_stop source gw tools 0 idx hr ctx h]; simp
    | toolCalls reqs u =>
      cases reqs with
      | nil => rw [runLoop_tools_nil source gw tools 0 idx hr ctx u h]; simp
      | cons r rs => rw [runLoop_tools_zero source gw tools idx hr ctx r rs u h]; simp
  | succ f ih =>
    intro idx hr ctx
    cases h : gw idx ctx with
    | text s u =>
      rw [runLoop_text source gw tools (f + 1) idx hr ctx s u h]
      cases hr <;> simp
    | empty =>
      rw [runLoop_empty_stop source gw tools (f + 1) idx hr ctx h]
      simp
    | toolCalls reqs u =>
      cases reqs with
      | nil =>
        rw [runLoop_tools_nil source gw tools (f + 1) idx hr ctx u h]
        simp
      | cons r rs =>
        rw [runLoop_tools_step source gw tools f idx hr ctx r rs u h]
        have hle := ih (idx + 1) true (ctx ++ roundMessages tools (r :: rs))
        simp only [List.length_cons]
        omega

theorem storeEvents_no_summary (source text : String) (stores : List MemoryStore) :
    (stores.map (storeEvent source text)).any isSummary = false := by
  rw [List.any_eq_false]
  intro x hx
  rcases List.mem_map.mp hx with ⟨st, _, rfl⟩
  rw [storeEvent]
  cases st.queryStore text <;> simp [isSummary]

theorem storeEvents_no_toolexec (source text : String) (stores : List MemoryStore) :
    (stores.map (storeEvent source text)).any isToolExec = false := by
  rw [List.any_eq_false]
  intro x hx
  rcases List.mem_map.mp hx with ⟨st, _, rfl⟩
  rw [storeEvent]
  cases st.queryStore text <;> simp [isToolExec]

theorem countToolExec_storeEvents (source text : String) (stores : List MemoryStore) :
    countToolExec (stores.map (storeEvent source text)) = 0 := by
  rw [countToolExec, List.countP_eq_zero]
  intro x hx
  rcases List.mem_map.mp hx with ⟨st, _, rfl⟩
  rw [storeEvent]
  cases st.queryStore text <;> simp [isToolExec]

theorem run_messages_eq (cfg : EngineConfig) (task : String) :
    (run cfg task).1.messages =
      Event.textMessage "user" task none ::
        cfg.stores.map (storeEvent cfg.source task) ++
          (runLoop cfg.source cfg.gateway cfg.tools cfg.maxTurns 0 false
            (memoryCtx cfg.stores task [ContextMessage.user task])).1 := rfl

theorem run_stop_eq (cfg : EngineConfig) (task : String) :
    (run cfg task).1.stopReason =
      (runLoop cfg.source cfg.gateway cfg.tools cfg.maxTurns 0 false
        (memoryCtx cfg.stores task [ContextMessage.user task])).2.1 := rfl

theorem runLoop_summary_iff (source : String)
    (gw : Nat → List ContextMessage → GatewayOutput) (tools : List Tool) :
    ∀ (fuel idx : Nat) (hr : Bool) (ctx : List ContextMessage),
      ((runLoop source gw tools fuel idx hr ctx).1.any isSummary = true) ↔
        ((runLoop source gw tools fuel idx hr ctx).2.1 = none ∧
          (hr = true ∨ (runLoop source gw tools fuel idx hr ctx).1.any isToolExec = true)) := by
  intro fuel
  induction fuel with
  | zero =>
    intro idx hr ctx
    cases h : gw idx ctx with
    | text s u =>
      rw [runLoop_text source gw tools 0 idx hr ctx s u h]
      cases hr <;> simp [isSummary, isToolExec]
    | empty => rw [runLoop_empty_stop source gw tools 0 idx hr ctx h]; simp
    | toolCalls reqs u =>
      cases reqs with
      | nil => rw [runLoop_tools_nil source gw tools 0 idx hr ctx u h]; simp
      | cons r rs => rw [runLoop_tools_zero source gw tools idx hr ctx r rs u h]; simp
  | succ f ih =>
    intro idx hr ctx
    cases h : gw idx ctx with
    | text s u =>
      rw [runLoop_text source gw tools (f + 1) idx hr ctx s u h]
      cases hr <;> simp [isSummary, isToolExec]
    | empty => rw [runLoop_empty_stop source gw tools (f + 1) idx hr ctx h]; simp
    | toolCalls reqs u =>
      cases reqs with
      | nil => rw [runLoop_tools_nil source gw tools (f + 1) idx hr ctx u h]; simp
      | cons r rs =>
        rw [runLoop_tools_step source gw tools f idx hr ctx r rs u h]
        have hih := ih (idx + 1) true (ctx ++ roundMessages tools (r :: rs))
        simp [isSummary, isToolExec] at hih ⊢
        exact hih

/-! ## Claim theorems: Turn Engine -/

/-- C1: for every configured max-turn cap and every Model Gateway
behaviour, the ModelInvoke-to-ToolDispatch loop cycles at most
`maxTurns` times (at most that many ToolCallExecutionEvents), the run
terminates within a bounded number of steps (its event list is bounded
by a linear function of the cap and store count), and when the gateway
keeps demanding tool calls the run returns a TaskResult with stop reason
"max_turns_exceeded" instead of looping forever. -/
theorem turn_cap_enforced :
    ∀ (cfg : EngineConfig) (task : String),
      countToolExec (run cfg task).1.messages ≤ cfg.maxTurns
      ∧ (run cfg task).1.messages.length ≤ 2 + cfg.stores.length + 2 * cfg.maxTurns
      ∧ ((∀ idx ctx, ∃ r rs u, cfg.gateway idx ctx = GatewayOutput.toolCalls (r :: rs) u) →
          (run cfg task).1.stopReason = some "max_turns_exceeded") := by
  intro cfg task
  refine ⟨?_, ?_, ?_⟩
  · rw [run_messages_eq]
    have h1 := countToolExec_storeEvents cfg.source task cfg.stores
    have h2 := runLoop_toolexec_le cfg.source cfg.gateway cfg.tools cfg.maxTurns 0 false
      (memoryCtx cfg.stores task [ContextMessage.user task])
    simp only [countToolExec, List.countP_cons, List.countP_append] at h1 h2 ⊢
    rw [h1]
    simp [isToolExec]
    omega
  · rw [run_messages_eq]
    have h3 := runLoop_events_len cfg.source cfg.gateway cfg.tools cfg.maxTurns 0 false
      (memoryCtx cfg.stores task [ContextMessage.user task])
    simp only [List.length_cons, List.length_append, List.length_map]
    omega
  · intro hg
    rw [run_stop_eq]
    exact runLoop_always_tools_stop cfg.source cfg.gateway cfg.tools hg cfg.maxTurns 0 false _

/-- Engine configuration whose gateway always demands one more tool call. -/
def capDemoConfig : EngineConfig :=
  { source := "agent", maxTurns := 2, stores := [],
    gateway := fun _ _ =>
      GatewayOutput.toolCalls [ToolCallRequest.mk "c" "t" "a"] (RequestUsage.mk 0 0),
    tools := [] }

/-- Witness for C1 on a gateway that never stops requesting tools. -/
theorem turn_cap_enforced_witness :
    countToolExec (run capDemoConfig "t").1.messages ≤ capDemoConfig.maxTurns
    ∧ (run capDemoConfig "t").1.stopReason = some "max_turns_exceeded" :=
  ⟨(turn_cap_enforced capDemoConfig "t").1,
   (turn_cap_enforced capDemoConfig "t").2.2
     (fun _ _ => ⟨ToolCallRequest.mk "c" "t" "a", [], RequestUsage.mk 0 0, rfl⟩)⟩

/-- C5: a Model Gateway response with neither text nor tool calls makes
the loop complete immediately — no ToolDispatch, no further events, no
loop — and the run returns a TaskResult with stop reason
"empty_model_response" (a value, not a raised failure); with no stores
attached the whole run records exactly one event, the user task. -/
theorem empty_response_completes :
    ∀ (source : String) (gw : Nat → List ContextMessage → GatewayOutput) (tools : List Tool)
      (fuel idx : Nat) (hr : Bool) (ctx : List ContextMessage),
      (gw idx ctx = GatewayOutput.empty →
        runLoop source gw tools fuel idx hr ctx = ([], some "empty_model_response", ctx))
      ∧ (∀ (cfg : EngineConfig) (task : String), cfg.stores = [] →
          cfg.gateway 0 [ContextMessage.user task] = GatewayOutput.empty →
          (run cfg task).1.messages = [Event.textMessage "user" task none]
          ∧ (run cfg task).1.stopReason = some "empty_model_response") := by
  intro source gw tools fuel idx hr ctx
  refine ⟨runLoop_empty_stop source gw tools fuel idx hr ctx, ?_⟩
  intro cfg task hst hg
  obtain ⟨src, mt, stores, gwf, tls⟩ := cfg
  replace hst : stores = [] := hst
  subst hst
  replace hg : gwf 0 [ContextMessage.user task] = GatewayOutput.empty := hg
  have h1 := runLoop_empty_stop src gwf tls mt 0 false [ContextMessage.user task] hg
  constructor
  · rw [run_messages_eq]
    simp only [memoryCtx, List.foldl_nil, List.map_nil] at h1 ⊢
    rw [h1]
    rfl
  · rw [run_stop_eq]
    simp only [memoryCtx, List.foldl_nil] at h1 ⊢
    rw [h1]

/-- Engine configuration whose gateway returns the malformed empty
response. -/
def emptyDemoConfig : EngineConfig :=
  { source := "agent", maxTurns := 3, stores := [],
    gateway := fun _ _ => GatewayOutput.empty, tools := [] }

/-- Witness for C5 on a gateway returning the empty response. -/
theorem empty_response_completes_witness :
    (run emptyDemoConfig "t").1.messages = [Event.textMessage "user" "t" none]
    ∧ (run emptyDemoConfig "t").1.stopReason = some "empty_model_response" :=
  (empty_response_completes "agent" (fun _ _ => GatewayOutput.empty) [] 0 0 false []).2
    emptyDemoConfig "t" rfl rfl

/-- C8: a ToolCallSummaryMessage appears in the run's events exactly when
the run completed on terminal text (stop reason `none`) after at least
one tool round (a ToolCallExecutionEvent is present); a turn whose first
gateway response is plain text yields the user event, the memory events
and one TextMessage — and no ToolCallSummaryMessage. -/
theorem summary_iff_tool_round :
    ∀ (cfg : EngineConfig) (task : String),
      ((run cfg task).1.messages.any isSummary = true ↔
        ((run cfg task).1.stopReason = none ∧
          (run cfg task).1.messages.any isToolExec = true))
      ∧ (∀ s u, cfg.gateway 0 (memoryCtx cfg.stores task [ContextMessage.user task]) =
            GatewayOutput.text s u →
          (run cfg task).1.messages =
            Event.textMessage "user" task none ::
              cfg.stores.map (storeEvent cfg.source task) ++
                [Event.textMessage cfg.source s (some u)]
          ∧ (run cfg task).1.messages.any isSummary = false) := by
  intro cfg task
  constructor
  · rw [run_messages_eq, run_stop_eq]
    have hiff := runLoop_summary_iff cfg.source cfg.gateway cfg.tools cfg.maxTurns 0 false
      (memoryCtx cfg.stores task [ContextMessage.user task])
    have hs := storeEvents_no_summary cfg.source task cfg.stores
    have ht := storeEvents_no_toolexec cfg.source task cfg.stores
    simp [isSummary, isToolExec, hs, ht] at hiff ⊢
    exact hiff
  · intro s u hg
    have hloop := runLoop_text cfg.source cfg.gateway cfg.tools cfg.maxTurns 0 false
      (memoryCtx cfg.stores task [ContextMessage.user task]) s u hg
    constructor
    · rw [run_messages_eq, hloop]
      simp
    · rw [run_messages_eq, hloop]
      have hs := storeEvents_no_summary cfg.source task cfg.stores
      simp [isSummary, hs]

/-- Engine configuration whose gateway answers directly with text. -/
def textDemoConfig : EngineConfig :=
  { source := "agent", maxTurns := 2, stores := [],
    gateway := fun _ _ => GatewayOutput.text "hello" (RequestUsage.mk 1 1), tools := [] }

/-- Witness for C8 on a direct text answer. -/
theorem summary_iff_tool_round_witness :
    (run textDemoConfig "t").1.messages =
      Event.textMessage "user" "t" none ::
        textDemoConfig.stores.map (storeEvent textDemoConfig.source "t") ++
          [Event.textMessage textDemoConfig.source "hello" (some (RequestUsage.mk 1 1))]
    ∧ (run textDemoConfig "t").1.messages.any isSummary = false :=
  (summary_iff_tool_round textDemoConfig "t").2 "hello" (RequestUsage.mk 1 1) rfl

/-! ## Streaming refinement -/

theorem runStreamLoop_tools_step (source : String)
    (gw : Nat → List ContextMessage → GatewayOutput) (tools : List Tool)
    (f idx : Nat) (hr : Bool) (ctx : List ContextMessage) (acc : List Event)
    (r : ToolCallRequest) (rs : List ToolCallRequest) (u : RequestUsage)
    (h : gw idx ctx = GatewayOutput.toolCalls (r :: rs) u) :
    runStreamLoop source gw tools (f + 1) idx hr ctx acc =
      StreamItem.event (Event.toolCallRequestEvent source (r :: rs) (some u)) ::
        StreamItem.event (Event.toolCallExecutionEvent source (executeRound tools (r :: rs))) ::
          runStreamLoop source gw tools f (idx + 1) true (ctx ++ roundMessages tools (r :: rs))
            (acc ++ [Event.toolCallRequestEvent source (r :: rs) (some u),
                     Event.toolCallExecutionEvent source (executeRound tools (r :: rs))]) := by
  rw [runStreamLoop, h]

theorem runStreamLoop_spec (source : String)
    (gw : Nat → List ContextMessage → GatewayOutput) (tools : List Tool) :
    ∀ (fuel idx : Nat) (hr : Bool) (ctx : List ContextMessage) (acc : List Event),
      runStreamLoop source gw tools fuel idx hr ctx acc =
        (runLoop source gw tools fuel idx hr ctx).1.map StreamItem.event ++
          [StreamItem.result
            { messages := acc ++ (runLoop source gw tools fuel idx hr ctx).1,
              stopReason := (runLoop source gw tools fuel idx hr ctx).2.1 }] := by
  intro fuel
  induction fuel with
  | zero =>
    intro idx hr ctx acc
    cases h : gw idx ctx with
    | text s u =>
      rw [runStreamLoop, h, runLoop_text source gw tools 0 idx hr ctx s u h]
      cases hr <;> simp
    | empty =>
      rw [runStreamLoop, h, runLoop_empty_stop source gw tools 0 idx hr ctx h]
      simp
    | toolCalls reqs u =>
      cases reqs with
      | nil =>
        rw [runStreamLoop, h, runLoop_tools_nil source gw tools 0 idx hr ctx u h]
        simp
      | cons r rs =>
        rw [runStreamLoop, h, runLoop_tools_zero source gw tools idx hr ctx r rs u h]
        simp
  | succ f ih =>
    intro idx hr ctx acc
    cases h : gw idx ctx with
    | text s u =>
      rw [runStreamLoop, h, runLoop_text source gw tools (f + 1) idx hr ctx s u h]
      cases hr <;> simp
    | empty =>
      rw [runStreamLoop, h, runLoop_empty_stop source gw tools (f + 1) idx hr ctx h]
      simp
    | toolCalls reqs u =>
      cases reqs with
      | nil =>
        rw [runStreamLoop, h, runLoop_tools_nil source gw tools (f + 1) idx hr ctx u h]
        simp
      | cons r rs =>
        rw [runStreamLoop_tools_step source gw tools f idx hr ctx acc r rs u h,
          runLoop_tools_step source gw tools f idx hr ctx r rs u h]
        rw [ih]
        simp

/-- C10: for every configuration and task, draining the event stream of
`runStream` yields exactly the events of `run`'s TaskResult in the same
order, terminated by a single sentinel carrying that TaskResult:
streaming and non-streaming invocation record the same turn. -/
theorem run_stream_refines_run :
    ∀ (cfg : EngineConfig) (task : String),
      runStream cfg task =
        (run cfg task).1.messages.map StreamItem.event ++
          [StreamItem.result (run cfg task).1] := by
  intro cfg task
  have hs : runStream cfg task =
      StreamItem.event (Event.textMessage "user" task none) ::
        (cfg.stores.map (storeEvent cfg.source task)).map StreamItem.event ++
          runStreamLoop cfg.source cfg.gateway cfg.tools cfg.maxTurns 0 false
            (memoryCtx cfg.stores task [ContextMessage.user task])
            (Event.textMessage "user" task none ::
              cfg.stores.map (storeEvent cfg.source task)) := rfl
  have hr2 : (run cfg task).1 =
      { messages := Event.textMessage "user" task none ::
          cfg.stores.map (storeEvent cfg.source task) ++
            (runLoop cfg.source cfg.gateway cfg.tools cfg.maxTurns 0 false
              (memoryCtx cfg.stores task [ContextMessage.user task])).1,
        stopReason := (runLoop cfg.source cfg.gateway cfg.tools cfg.maxTurns 0 false
          (memoryCtx cfg.stores task [ContextMessage.user task])).2.1 } := rfl
  rw [hs, runStreamLoop_spec, hr2]
  simp

/-! ## Memory failure degradation -/

theorem memoryCtx_skip (text : String) (pre post : List MemoryStore) (st : MemoryStore)
    (e : String) (hf : st.queryStore text = Except.error e) (ctx : List ContextMessage) :
    memoryCtx (pre ++ st :: post) text ctx = memoryCtx (pre ++ post) text ctx := by
  rw [memoryCtx, memoryCtx, List.foldl_append, List.foldl_append, List.foldl_cons]
  simp only [hf]

theorem run_ctx_eq (cfg : EngineConfig) (task : String) :
    (run cfg task).2 =
      (runLoop cfg.source cfg.gateway cfg.tools cfg.maxTurns 0 false
        (memoryCtx cfg.stores task [ContextMessage.user task])).2.2 := rfl

/-- C6: a Memory Store whose query fails with MemoryUnavailableError is
skipped: the run's final context buffer, stop reason and engine behaviour
are exactly those of the run without that store, and the only difference
in the recorded events is one degraded event inserted at the failing
store's position — the memory failure never aborts the turn. -/
theorem memory_failure_degrades :
    ∀ (cfg : EngineConfig) (task : String) (pre post : List MemoryStore)
      (st : MemoryStore) (e : String),
      st.queryStore task = Except.error e →
      cfg.stores = pre ++ st :: post →
      ((run cfg task).2 = (run { cfg with stores := pre ++ post } task).2
       ∧ (run cfg task).1.stopReason =
           (run { cfg with stores := pre ++ post } task).1.stopReason
       ∧ ∃ l1 l2 : List Event,
           (run { cfg with stores := pre ++ post } task).1.messages = l1 ++ l2
           ∧ l1.length = 1 + pre.length
           ∧ (run cfg task).1.messages =
               l1 ++ Event.memoryDegradedEvent cfg.source e :: l2) := by
  intro cfg task pre post st e hf hst
  have hctx := memoryCtx_skip task pre post st e hf [ContextMessage.user task]
  have hse : storeEvent cfg.source task st = Event.memoryDegradedEvent cfg.source e := by
    rw [storeEvent, hf]
  refine ⟨?_, ?_, ?_⟩
  · rw [run_ctx_eq, run_ctx_eq, hst]
    show (runLoop cfg.source cfg.gateway cfg.tools cfg.maxTurns 0 false
        (memoryCtx (pre ++ st :: post) task [ContextMessage.user task])).2.2 =
      (runLoop cfg.source cfg.gateway cfg.tools cfg.maxTurns 0 false
        (memoryCtx (pre ++ post) task [ContextMessage.user task])).2.2
    rw [hctx]
  · rw [run_stop_eq, run_stop_eq, hst]
    show (runLoop cfg.source cfg.gateway cfg.tools cfg.maxTurns 0 false
        (memoryCtx (pre ++ st :: post) task [ContextMessage.user task])).2.1 =
      (runLoop cfg.source cfg.gateway cfg.tools cfg.maxTurns 0 false
        (memoryCtx (pre ++ post) task [ContextMessage.user task])).2.1
    rw [hctx]
  · refine ⟨Event.textMessage "user" task none :: pre.map (storeEvent cfg.source task),
      post.map (storeEvent cfg.source task) ++
        (runLoop cfg.source cfg.gateway cfg.tools cfg.maxTurns 0 false
          (memoryCtx (pre ++ post) task [ContextMessage.user task])).1, ?_, ?_, ?_⟩
    · rw [run_messages_eq]
      show Event.textMessage "user" task none ::
          (pre ++ post).map (storeEvent cfg.source task) ++
            (runLoop cfg.source cfg.gateway cfg.tools cfg.maxTurns 0 false
              (memoryCtx (pre ++ post) task [ContextMessage.user task])).1 = _
      simp [List.map_append]
    · simp [Nat.add_comm]
    · rw [run_messages_eq, hst, hctx]
      simp [List.map_append, hse]

/-- A store whose backing service is unreachable. -/
def failDemoStore : MemoryStore := { queryStore := fun _ => Except.error "unreachable" }

/-- Engine configuration with one failing store and a text gateway. -/
def failDemoConfig : EngineConfig :=
  { source := "agent", maxTurns := 1, stores := [failDemoStore],
    gateway := fun _ _ => GatewayOutput.text "ok" (RequestUsage.mk 1 1), tools := [] }

/-- Witness for C6 at a concrete failing store. -/
theorem memory_failure_degrades_witness :
    (run failDemoConfig "t").2 = (run { failDemoConfig with stores := [] ++ [] } "t").2
    ∧ (run failDemoConfig "t").1.stopReason =
        (run { failDemoConfig with stores := [] ++ [] } "t").1.stopReason :=
  ⟨(memory_failure_degrades failDemoConfig "t" [] [] failDemoStore "unreachable" rfl rfl).1,
   (memory_failure_degrades failDemoConfig "t" [] [] failDemoStore "unreachable" rfl rfl).2.1⟩

/-! ## Cancellation lemmas -/

theorem runCLoop_cancel_now (source : String)
    (gw : Nat → List ContextMessage → GatewayOutput) (tools : List Tool)
    (cancel : Nat → Bool) (fuel idx sp : Nat) (hr : Bool) (ctx : List ContextMessage)
    (hc : cancel sp = true) :
    runCLoop source gw tools cancel fuel idx sp hr ctx =
      ([], some "cancelled", ctx, sp + 1) := by
  cases fuel <;> (rw [runCLoop]; simp [hc])

theorem runCLoop_text_eq (source : String)
    (gw : Nat → List ContextMessage → GatewayOutput) (tools : List Tool)
    (cancel : Nat → Bool) (fuel idx sp : Nat) (hr : Bool) (ctx : List ContextMessage)
    (s : String) (u : RequestUsage) (hc : cancel sp = false)
    (h : gw idx ctx = GatewayOutput.text s u) :
    runCLoop source gw tools cancel fuel idx sp hr ctx =
      if hr then ([Event.toolCallSummaryMessage source s], none,
        ctx ++ [ContextMessage.assistant s []], sp + 1)
      else ([Event.textMessage source s (some u)], none,
        ctx ++ [ContextMessage.assistant s []], sp + 1) := by
  cases fuel <;> (rw [runCLoop]; simp [hc, h])

theorem runCLoop_empty_eq (source : String)
    (gw : Nat → List ContextMessage → GatewayOutput) (tools : List Tool)
    (cancel : Nat → Bool) (fuel idx sp : Nat) (hr : Bool) (ctx : List ContextMessage)
    (hc : cancel sp = false) (h : gw idx ctx = GatewayOutput.empty) :
    runCLoop source gw tools cancel fuel idx sp hr ctx =
      ([], some "empty_model_response", ctx, sp + 1) := by
  cases fuel <;> (rw [runCLoop]; simp [hc, h])

theorem runCLoop_tools_nil_eq (source : String)
    (gw : Nat → List ContextMessage → GatewayOutput) (tools : List Tool)
    (cancel : Nat → Bool) (fuel idx sp : Nat) (hr : Bool) (ctx : List ContextMessage)
    (u : RequestUsage) (hc : cancel sp = false)
    (h : gw idx ctx = GatewayOutput.toolCalls [] u) :
    runCLoop source gw tools cancel fuel idx sp hr ctx =
      ([], some "empty_model_response", ctx, sp + 1) := by
  cases fuel <;> (rw [runCLoop]; simp [hc, h])

theorem runCLoop_tools_zero_eq (source : String)
    (gw : Nat → List ContextMessage → GatewayOutput) (tools : List Tool)
    (cancel : Nat → Bool) (idx sp : Nat) (hr : Bool) (ctx : List ContextMessage)
    (r : ToolCallRequest) (rs : List ToolCallRequest) (u : RequestUsage)
    (hc : cancel sp = false) (h : gw idx ctx = GatewayOutput.toolCalls (r :: rs) u) :
    runCLoop source gw tools cancel 0 idx sp hr ctx =
      ([], some "max_turns_exceeded", ctx, sp + 1) := by
  rw [runCLoop]; simp [hc, h]

theorem runCLoop_round_cancel (source : String)
    (gw : Nat → List ContextMessage → GatewayOutput) (tools : List Tool)
    (cancel : Nat → Bool) (f idx sp : Nat) (hr : Bool) (ctx : List ContextMessage)
    (r : ToolCallRequest) (rs : List ToolCallRequest) (u : RequestUsage)
    (hc : cancel sp = false) (h : gw idx ctx = GatewayOutput.toolCalls (r :: rs) u)
    (h2 : (List.range (r :: rs).length).any (fun j => cancel (sp + 1 + j)) = true) :
    runCLoop source gw tools cancel (f + 1) idx sp hr ctx =
      ([], some "cancelled", ctx, sp + 1 + (r :: rs).length) := by
  rw [runCLoop]; simp [hc, h]
  simp only [List.any_eq_true, List.mem_range, List.length_cons] at h2
  exact h2

theorem runCLoop_round_step (source : String)
    (gw : Nat → List ContextMessage → GatewayOutput) (tools : List Tool)
    (cancel : Nat → Bool) (f idx sp : Nat) (hr : Bool) (ctx : List ContextMessage)
    (r : ToolCallRequest) (rs : List ToolCallRequest) (u : RequestUsage)
    (hc : cancel sp = false) (h : gw idx ctx = GatewayOutput.toolCalls (r :: rs) u)
    (h2 : (List.range (r :: rs).length).any (fun j => cancel (sp + 1 + j)) = false) :
    runCLoop source gw tools cancel (f + 1) idx sp hr ctx =
      (Event.toolCallRequestEvent source (r :: rs) (some u) ::
         Event.toolCallExecutionEvent source (executeRound tools (r :: rs)) ::
           (runCLoop source gw tools cancel f (idx + 1) (sp + 1 + (r :: rs).length) true
             (ctx ++ roundMessages tools (r :: rs))).1,
       (runCLoop source gw tools cancel f (idx + 1) (sp + 1 + (r :: rs).length) true
         (ctx ++ roundMessages tools (r :: rs))).2.1,
       (runCLoop source gw tools cancel f (idx + 1) (sp + 1 + (r :: rs).length) true
         (ctx ++ roundMessages tools (r :: rs))).2.2.1,
       (runCLoop source gw tools cancel f (idx + 1) (sp + 1 + (r :: rs).length) true
         (ctx ++ roundMessages tools (r :: rs))).2.2.2) := by
  rw [runCLoop]; simp [hc, h]
  simp at h2
  exact h2

theorem runCLoop_wf (source : String)
    (gw : Nat → List ContextMessage → GatewayOutput) (tools : List Tool)
    (cancel : Nat → Bool) :
    ∀ (fuel idx sp : Nat) (hr : Bool) (ctx : List ContextMessage),
      ctxWf ctx = true →
      ctxWf (runCLoop source gw tools cancel fuel idx sp hr ctx).2.2.1 = true := by
  intro fuel
  induction fuel with
  | zero =>
    intro idx sp hr ctx hwf
    cases hc : cancel sp with
    | true =>
      rw [runCLoop_cancel_now source gw tools cancel 0 idx sp hr ctx hc]
      exact hwf
    | false =>
      cases h : gw idx ctx with
      | text s u =>
        rw [runCLoop_text_eq source gw tools cancel 0 idx sp hr ctx s u hc h]
        cases hr
        · exact ctxWfAux_append [ContextMessage.assistant s []] rfl ctx [] hwf
        · exact ctxWfAux_append [ContextMessage.assistant s []] rfl ctx [] hwf
      | empty =>
        rw [runCLoop_empty_eq source gw tools cancel 0 idx sp hr ctx hc h]
        exact hwf
      | toolCalls reqs u =>
        cases reqs with
        | nil =>
          rw [runCLoop_tools_nil_eq source gw tools cancel 0 idx sp hr ctx u hc h]
          exact hwf
        | cons r rs =>
          rw [runCLoop_tools_zero_eq source gw tools cancel idx sp hr ctx r rs u hc h]
          exact hwf
  | succ f ih =>
    intro idx sp hr ctx hwf
    cases hc : cancel sp with
    | true =>
      rw [runCLoop_cancel_now source gw tools cancel (f + 1) idx sp hr ctx hc]
      exact hwf
    | false =>
      cases h : gw idx ctx with
      | text s u =>
        rw [runCLoop_text_eq source gw tools cancel (f + 1) idx sp hr ctx s u hc h]
        cases hr
        · exact ctxWfAux_append [ContextMessage.assistant s []] rfl ctx [] hwf
        · exact ctxWfAux_append [ContextMessage.assistant s []] rfl ctx [] hwf
      | empty =>
        rw [runCLoop_empty_eq source gw tools cancel (f + 1) idx sp hr ctx hc h]
        exact hwf
      | toolCalls reqs u =>
        cases reqs with
        | nil =>
          rw [runCLoop_tools_nil_eq source gw tools cancel (f + 1) idx sp hr ctx u hc h]
          exact hwf
        | cons r rs =>
          cases h2 : (List.range (r :: rs).length).any (fun j => cancel (sp + 1 + j)) with
          | true =>
            rw [runCLoop_round_cancel source gw tools cancel f idx sp hr ctx r rs u hc h h2]
            exact hwf
          | false =>
            rw [runCLoop_round_step source gw tools cancel f idx sp hr ctx r rs u hc h h2]
            exact ih (idx + 1) (sp + 1 + (r :: rs).length) true _
              (ctxWfAux_append _ (roundMessages_wf tools (r :: rs)) ctx [] hwf)

theorem runCLoop_cancel_detect (source : String)
    (gw : Nat → List ContextMessage → GatewayOutput) (tools : List Tool)
    (cancel : Nat → Bool) :
    ∀ (fuel idx sp : Nat) (hr : Bool) (ctx : List ContextMessage),
      (runCLoop source gw tools cancel fuel idx sp hr ctx).2.1 = some "cancelled"
      ∨ (∀ i, sp ≤ i →
          i < (runCLoop source gw tools cancel fuel idx sp hr ctx).2.2.2 →
          cancel i = false) := by
  intro fuel
  induction fuel with
  | zero =>
    intro idx sp hr ctx
    cases hc : cancel sp with
    | true =>
      rw [runCLoop_cancel_now source gw tools cancel 0 idx sp hr ctx hc]
      exact Or.inl rfl
    | false =>
      cases h : gw idx ctx with
      | text s u =>
        rw [runCLoop_text_eq source gw tools cancel 0 idx sp hr ctx s u hc h]
        right
        intro i h1 h2
        cases hr
        · replace h2 : i < sp + 1 := h2
          have hi : i = sp := by omega
          rw [hi]; exact hc
        · replace h2 : i < sp + 1 := h2
          have hi : i = sp := by omega
          rw [hi]; exact hc
      | empty =>
        rw [runCLoop_empty_eq source gw tools cancel 0 idx sp hr ctx hc h]
        right
        intro i h1 h2
        replace h2 : i < sp + 1 := h2
        have hi : i = sp := by omega
        rw [hi]; exact hc
      | toolCalls reqs u =>
        cases reqs with
        | nil =>
          rw [runCLoop_tools_nil_eq source gw tools cancel 0 idx sp hr ctx u hc h]
          right
          intro i h1 h2
          replace h2 : i < sp + 1 := h2
          have hi : i = sp := by omega
          rw [hi]; exact hc
        | cons r rs =>
          rw [runCLoop_tools_zero_eq source gw tools cancel idx sp hr ctx r rs u hc h]
          right
          intro i h1 h2
          replace h2 : i < sp + 1 := h2
          have hi : i = sp := by omega
          rw [hi]; exact hc
  | succ f ih =>
    intro idx sp hr ctx
    cases hc : cancel sp with
    | true =>
      rw [runCLoop_cancel_now source gw tools cancel (f + 1) idx sp hr ctx hc]
      exact Or.inl rfl
    | false =>
      cases h : gw idx ctx with
      | text s u =>
        rw [runCLoop_text_eq source gw tools cancel (f + 1) idx sp hr ctx s u hc h]
        right
        intro i h1 h2
        cases hr
        · replace h2 : i < sp + 1 := h2
          have hi : i = sp := by omega
          rw [hi]; exact hc
        · replace h2 : i < sp + 1 := h2
          have hi : i = sp := by omega
          rw [hi]; exact hc
      | empty =>
        rw [runCLoop_empty_eq source gw tools cancel (f + 1) idx sp hr ctx hc h]
        right
        intro i h1 h2
        replace h2 : i < sp + 1 := h2
        have hi : i = sp := by omega
        rw [hi]; exact hc
      | toolCalls reqs u =>
        cases reqs with
        | nil =>
          rw [runCLoop_tools_nil_eq source gw tools cancel (f + 1) idx sp hr ctx u hc h]
          right
          intro i h1 h2
          replace h2 : i < sp + 1 := h2
          have hi : i = sp := by omega
          rw [hi]; exact hc
        | cons r rs =>
          cases h2 : (List.range (r :: rs).length).any (fun j => cancel (sp + 1 + j)) with
          | true =>
            rw [runCLoop_round_cancel source gw tools cancel f idx sp hr ctx r rs u hc h h2]
            exact Or.inl rfl
          | false =>
            rw [runCLoop_round_step source gw tools cancel f idx sp hr ctx r rs u hc h h2]
            rcases ih (idx + 1) (sp + 1 + (r :: rs).length) true
              (ctx ++ roundMessages tools (r :: rs)) with hl | hrest
            · exact Or.inl hl
            · right
              intro i h1 hlt
              replace hlt : i <
                  (runCLoop source gw tools cancel f (idx + 1) (sp + 1 + (r :: rs).length) true
                    (ctx ++ roundMessages tools (r :: rs))).2.2.2 := hlt
              by_cases hcase : i < sp + 1 + (r :: rs).length
              · by_cases hi : i = sp
                · rw [hi]; exact hc
                · have hj : i - (sp + 1) < (r :: rs).length := by omega
                  have hji : sp + 1 + (i - (sp + 1)) = i := by omega
                  have hfalse := List.any_eq_false.mp h2 (i - (sp + 1)) (List.mem_range.mpr hj)
                  rw [hji] at hfalse
                  simpa using hfalse
              · exact hrest i (by omega) hlt

theorem runC_stop_eq (cfg : EngineConfig) (cancel : Nat → Bool) (task : String) :
    (runC cfg cancel task).1.stopReason =
      (runCLoop cfg.source cfg.gateway cfg.tools cancel cfg.maxTurns 0 0 false
        (memoryCtx cfg.stores task [ContextMessage.user task])).2.1 := rfl

theorem runC_ctxbuf_eq (cfg : EngineConfig) (cancel : Nat → Bool) (task : String) :
    (runC cfg cancel task).2.1 =
      (runCLoop cfg.source cfg.gateway cfg.tools cancel cfg.maxTurns 0 0 false
        (memoryCtx cfg.stores task [ContextMessage.user task])).2.2.1 := rfl

theorem runC_sp_eq (cfg : EngineConfig) (cancel : Nat → Bool) (task : String) :
    (runC cfg cancel task).2.2 =
      (runCLoop cfg.source cfg.gateway cfg.tools cancel cfg.maxTurns 0 0 false
        (memoryCtx cfg.stores task [ContextMessage.user task])).2.2.2 := rfl

/-- C7: whenever the cancellation signal fires at a suspension point the
run consumed, the TaskResult stop reason is "cancelled"; and in every run
under cancellation the final context buffer is well formed — every
dispatched round's ToolResults are either all in the buffer, immediately
after their request, or none are (never a proper non-empty subset). -/
theorem cancellation_clean :
    ∀ (cfg : EngineConfig) (cancel : Nat → Bool) (task : String),
      ((∃ i, i < (runC cfg cancel task).2.2 ∧ cancel i = true) →
        (runC cfg cancel task).1.stopReason = some "cancelled")
      ∧ ctxWf (runC cfg cancel task).2.1 = true := by
  intro cfg cancel task
  constructor
  · rintro ⟨i, hi, hci⟩
    rw [runC_stop_eq]
    rcases runCLoop_cancel_detect cfg.source cfg.gateway cfg.tools cancel cfg.maxTurns 0 0 false
      (memoryCtx cfg.stores task [ContextMessage.user task]) with hl | hnone
    · exact hl
    · exfalso
      rw [runC_sp_eq] at hi
      have hfi := hnone i (Nat.zero_le i) hi
      rw [hci] at hfi
      exact Bool.noConfusion hfi
  · rw [runC_ctxbuf_eq]
    exact runCLoop_wf cfg.source cfg.gateway cfg.tools cancel cfg.maxTurns 0 0 false _
      (memoryCtx_wf task cfg.stores [ContextMessage.user task] rfl)

/-- Engine configuration issuing a two-call round, for the cancellation
scenario of spec §8: cancellation fires at the second call's suspension
point, after the first call completed. -/
def cancelDemoConfig : EngineConfig :=
  { source := "agent", maxTurns := 3, stores := [],
    gateway := fun _ _ => GatewayOutput.toolCalls
      [ToolCallRequest.mk "c1" "f" "x", ToolCallRequest.mk "c2" "g" "y"] (RequestUsage.mk 0 0),
    tools := [] }

/-- Witness for C7: cancelling mid-round with one of two calls already
completed yields stop reason "cancelled" and a well-formed buffer (the
round's results are absent as a whole). -/
theorem cancellation_clean_witness :
    (runC cancelDemoConfig (fun i => decide (i = 2)) "t").1.stopReason = some "cancelled"
    ∧ ctxWf (runC cancelDemoConfig (fun i => decide (i = 2)) "t").2.1 = true :=
  ⟨(cancellation_clean cancelDemoConfig (fun i => decide (i = 2)) "t").1
     ⟨2, by decide, by decide⟩,
   (cancellation_clean cancelDemoConfig (fun i => decide (i = 2)) "t").2⟩

end Autogen
